import Mathlib

/-!
Verification of the Prompt DJ streaming playback engine against its design
specification.  The definitions below are a shallow embedding of the repository
code: the PCM codec and WAV writer of `src/utils.ts`, and the scheduling /
state-machine / capture-log logic of the `PromptDj` component in
`src/index.tsx`.  Sample values and clock instants are modelled as rationals
(the JavaScript floats of the source; every arithmetic operation the embedded
code performs on them — multiplication and division by powers of two, addition
and comparison of small quantities — is exact in binary floating point, so the
rational model is faithful).  Machine integer conversions (the implicit ToInt16
of `Int16Array` element stores and of `DataView.setInt16`) are modelled
explicitly as truncation toward zero followed by wrapping modulo 2^16.
-/

/-- Truncation toward zero of a JavaScript number, the first half of the
ToInt16 abstract operation that runs when a float is stored into an
`Int16Array` element or passed to `DataView.setInt16`. -/
def jsTrunc (q : ℚ) : ℤ := if 0 ≤ q then ⌊q⌋ else ⌈q⌉

/-- Wrap of an integer into the signed 16-bit range, the second half of the
ToInt16 abstract operation. -/
def toInt16 (n : ℤ) : ℤ := (n + 32768) % 65536 - 32768

/-- Per-sample int16 conversion of `createBlob` (src/utils.ts lines 26-38):
`int16[i] = data[i] * 32768`, stored through an `Int16Array` element write,
which truncates toward zero and wraps modulo 2^16. -/
def encodeSample (x : ℚ) : ℤ := toInt16 (jsTrunc (x * 32768))

/-- The sample-array part of `createBlob` (src/utils.ts lines 26-38): the
int16 conversion mapped over the input.  The base64 transport encoding of the
resulting bytes is a bijective relabelling and is elided; round-trip claims
are stated at the int16 level, exactly as the specification defines them. -/
def createBlobInt16 (xs : List ℚ) : List ℤ := xs.map encodeSample

/-- Per-sample float recovery of `decodeAudioData` (src/utils.ts line 56):
`dataFloat32[i] = dataInt16[i] / 32768.0`. -/
def decodeSample (n : ℤ) : ℚ := (n : ℚ) / 32768

/-- The inverse sample mapping over a whole wire chunk (the spec codec's
`decodeSamples`): division of each 16-bit integer by 32768. -/
def decodeSamples (ns : List ℤ) : List ℚ := ns.map decodeSample

/-- Reinterpretation of a little-endian byte sequence as signed 16-bit
integers: `new Int16Array(data.buffer)` at src/utils.ts line 52.  (For an odd
byte count the JS constructor would throw a RangeError; the embedded claims
never exercise that case, and the trailing byte is dropped here.) -/
def bytesToInt16 : List ℕ → List ℤ
  | b0 :: b1 :: rest => toInt16 (b0 + 256 * b1) :: bytesToInt16 rest
  | _ => []

/-- Web Audio `AudioBuffer` (the platform object both decode and export code
manipulate): per-channel sample lists plus the declared geometry. -/
structure AudioBuffer where
  numberOfChannels : ℕ
  length : ℕ
  sampleRate : ℕ
  channels : List (List ℚ)
deriving DecidableEq

/-- Derived duration attribute of an `AudioBuffer`: frame count divided by
sample rate (the spec's `duration = sample-count / sample rate`). -/
def AudioBuffer.duration (b : AudioBuffer) : ℚ := (b.length : ℚ) / (b.sampleRate : ℚ)

/-- Platform semantics of `BaseAudioContext.createBuffer` (external
collaborator, per the Web Audio API): a zero channel count or zero length is
rejected with NotSupportedError, modelled as `none`; on success every channel
is zero-filled. -/
def createBuffer (numChannels len sampleRate : ℕ) : Option AudioBuffer :=
  if numChannels = 0 ∨ len = 0 then none
  else some ⟨numChannels, len, sampleRate, List.replicate numChannels (List.replicate len 0)⟩

/-- Platform semantics of `AudioBuffer.copyToChannel` (external collaborator,
per the Web Audio API): copies `min (source length) (buffer length)` frames
into the named channel starting at frame 0, leaving later frames untouched;
a channel index out of range raises IndexSizeError, modelled as `none`. -/
def copyToChannel (b : AudioBuffer) (data : List ℚ) (ch : ℕ) : Option AudioBuffer :=
  if ch < b.numberOfChannels then
    let written := data.take (min data.length b.length) ++
      (b.channels.getD ch []).drop (min data.length b.length)
    some { b with channels := b.channels.set ch written }
  else none

/-- Channel slice of the interleaved stream taken by src/utils.ts lines 62-65:
`dataFloat32.filter((_, index) => index % numChannels === i)`. -/
def channelSlice (data : List ℚ) (numChannels i : ℕ) : List ℚ :=
  (data.enum.filter (fun p => p.1 % numChannels == i)).map Prod.snd

/-- The channel-extraction loop of src/utils.ts lines 62-67, copying each
slice into its channel in index order and propagating any platform error. -/
def copyChannelLoop (data : List ℚ) (numChannels : ℕ) : List ℕ → AudioBuffer → Option AudioBuffer
  | [], b => some b
  | i :: rest, b =>
    match copyToChannel b (channelSlice data numChannels i) i with
    | none => none
    | some b2 => copyChannelLoop data numChannels rest b2

/-- `decodeAudioData` (src/utils.ts lines 40-71).  The buffer is created with
`numChannels` channels and `data.length / 2 / numChannels` frames (JavaScript
float division truncated by the unsigned-long conversion of `createBuffer`;
for `numChannels = 0` the quotient is not finite and converts to 0, and the
zero channel count is itself rejected — both modelled by the `createBuffer`
guard, since natural division by zero is 0 here).  The byte data is
reinterpreted as int16, scaled by 1/32768, and either copied whole to channel
0 (the `numChannels === 0` branch) or de-interleaved channel by channel. -/
def decodeAudioData (data : List ℕ) (sampleRate numChannels : ℕ) : Option AudioBuffer :=
  match createBuffer numChannels (data.length / 2 / numChannels) sampleRate with
  | none => none
  | some buffer =>
    let dataFloat32 := decodeSamples (bytesToInt16 data)
    if numChannels = 0 then copyToChannel buffer dataFloat32 0
    else copyChannelLoop dataFloat32 numChannels (List.range numChannels) buffer

/-- Per-sample conversion of the WAV export loop (src/utils.ts lines 113-115):
clamp to [-1, 1], scale negatives by 0x8000 and non-negatives by 0x7fff, then
store through `setInt16` (truncation toward zero and 16-bit wrap). -/
def wavSample (x : ℚ) : ℤ :=
  toInt16 (jsTrunc (if max (-1) (min 1 x) < 0
    then max (-1) (min 1 x) * 32768
    else max (-1) (min 1 x) * 32767))

/-- Quantizer as the specification words it (spec §4.1 `encodeWav`): each
sample clamped to [-1,1], negative samples scaled by 32768 and non-negative
ones by 32767, truncated to an integer — with no wraparound step.  Stated
separately from `wavSample` so the code can be proved to refine it. -/
def specWavQuant (x : ℚ) : ℤ :=
  jsTrunc (if max (-1) (min 1 x) < 0
    then max (-1) (min 1 x) * 32768
    else max (-1) (min 1 x) * 32767)

/-- Little-endian byte pair written by `view.setInt16(offset, v, true)`. -/
def i16leBytes (n : ℤ) : List ℕ := [(n % 65536).toNat % 256, (n % 65536).toNat / 256]

/-- Little-endian byte quadruple written by `view.setUint32(offset, v, true)`
(the store wraps modulo 2^32, which the fourth byte's modulus realises). -/
def u32le (v : ℕ) : List ℕ := [v % 256, v / 256 % 256, v / 65536 % 256, v / 16777216 % 256]

/-- Little-endian byte pair written by `view.setUint16(offset, v, true)`. -/
def u16le (v : ℕ) : List ℕ := [v % 256, v / 256 % 256]

/-- The 44 header bytes of `audioBufferToWav` (src/utils.ts lines 89-104).
The source writes through a DataView at offsets 0, 4, 8, 12, 16, 20, 22, 24,
28, 32, 34, 36, 40 with field widths that exactly tile bytes 0..43, so the
header equals the concatenation of the fields in offset order; string fields
are their ASCII codes. -/
def wavHeader (numFrames numOfChan sampleRate : ℕ) : List ℕ :=
  [82, 73, 70, 70] ++ u32le (36 + numFrames * numOfChan * 2) ++
  [87, 65, 86, 69] ++
  [102, 109, 116, 32] ++ u32le 16 ++ u16le 1 ++ u16le numOfChan ++
  u32le sampleRate ++ u32le (sampleRate * 2 * numOfChan) ++
  u16le (numOfChan * 2) ++ u16le 16 ++
  [100, 97, 116, 97] ++ u32le (numFrames * numOfChan * 2)

/-- The interleaved 16-bit data section of `audioBufferToWav` (src/utils.ts
lines 110-118): frames in order, channels within each frame. -/
def wavData (b : AudioBuffer) : List ℕ :=
  (List.range b.length).flatMap fun i =>
    (List.range b.numberOfChannels).flatMap fun j =>
      i16leBytes (wavSample ((b.channels.getD j []).getD i 0))

/-- `audioBufferToWav` (src/utils.ts lines 73-121) as the emitted byte
sequence: 44-byte header followed by the sample data. -/
def audioBufferToWav (b : AudioBuffer) : List ℕ :=
  wavHeader b.length b.numberOfChannels b.sampleRate ++ wavData b

/-- Byte lookup in an emitted byte sequence (out-of-range reads as 0; the
verified offsets are always in range). -/
def byteAt : List ℕ → ℕ → ℕ
  | [], _ => 0
  | b :: _, 0 => b
  | _ :: rest, n + 1 => byteAt rest n

/-- Little-endian 16-bit read from an emitted byte sequence. -/
def readU16LE (bs : List ℕ) (off : ℕ) : ℕ :=
  byteAt bs off + 256 * byteAt bs (off + 1)

/-- Little-endian 32-bit read from an emitted byte sequence. -/
def readU32LE (bs : List ℕ) (off : ℕ) : ℕ :=
  byteAt bs off + 256 * byteAt bs (off + 1) +
    65536 * byteAt bs (off + 2) + 16777216 * byteAt bs (off + 3)

/-! Helper lemmas shared by the codec and WAV theorems. -/

/-- Base-256 digit recomposition for 32-bit little-endian fields. -/
lemma digits32_recompose : ∀ v : ℕ, v < 4294967296 →
    v % 256 + 256 * (v / 256 % 256) + 65536 * (v / 65536 % 256) +
      16777216 * (v / 16777216 % 256) = v := by
  intro v hv; omega

/-- Base-256 digit recomposition for 16-bit little-endian fields. -/
lemma digits16_recompose : ∀ v : ℕ, v < 65536 →
    v % 256 + 256 * (v / 256 % 256) = v := by
  intro v hv; omega

/-- Flat form of the 44 header bytes (the concatenation in `wavHeader`
expanded field by field). -/
lemma wavHeader_flat (nf nc sr : ℕ) : wavHeader nf nc sr =
    [82, 73, 70, 70,
     (36 + nf * nc * 2) % 256, (36 + nf * nc * 2) / 256 % 256,
     (36 + nf * nc * 2) / 65536 % 256, (36 + nf * nc * 2) / 16777216 % 256,
     87, 65, 86, 69,
     102, 109, 116, 32,
     16, 0, 0, 0,
     1, 0,
     nc % 256, nc / 256 % 256,
     sr % 256, sr / 256 % 256, sr / 65536 % 256, sr / 16777216 % 256,
     (sr * 2 * nc) % 256, (sr * 2 * nc) / 256 % 256,
     (sr * 2 * nc) / 65536 % 256, (sr * 2 * nc) / 16777216 % 256,
     (nc * 2) % 256, (nc * 2) / 256 % 256,
     16, 0,
     100, 97, 116, 97,
     (nf * nc * 2) % 256, (nf * nc * 2) / 256 % 256,
     (nf * nc * 2) / 65536 % 256, (nf * nc * 2) / 16777216 % 256] := by
  simp [wavHeader, u32le, u16le]

/-- Round-trip error bound for a single sample in [-1, 1): encoding truncates
toward zero without wrapping, so decoding recovers the sample to within one
quantization step. -/
lemma decode_encode_within_step (x : ℚ) (h1 : -1 ≤ x) (h2 : x < 1) :
    |decodeSample (encodeSample x) - x| ≤ 1 / 32768 := by
  set r := x * 32768 with hr
  have hrlo : (-32768 : ℚ) ≤ r := by rw [hr]; nlinarith
  have hrhi : r < 32768 := by rw [hr]; nlinarith
  have htb : -32768 ≤ jsTrunc r ∧ jsTrunc r ≤ 32767 ∧ |r - (jsTrunc r : ℚ)| ≤ 1 := by
    unfold jsTrunc
    by_cases h0 : 0 ≤ r
    · rw [if_pos h0]
      have hfl : (0 : ℤ) ≤ ⌊r⌋ := Int.floor_nonneg.mpr h0
      have hfu : ⌊r⌋ < 32768 := by rw [Int.floor_lt]; exact_mod_cast hrhi
      have hle : (⌊r⌋ : ℚ) ≤ r := Int.floor_le r
      have hgt : r - 1 < (⌊r⌋ : ℚ) := Int.sub_one_lt_floor r
      refine ⟨by omega, by omega, ?_⟩
      rw [abs_le]
      constructor <;> linarith
    · rw [if_neg h0]
      push_neg at h0
      have hcu : ⌈r⌉ ≤ 0 := Int.ceil_le.mpr (le_of_lt h0)
      have hcl : (-32768 : ℤ) ≤ ⌈r⌉ := by
        have hq : (-32768 : ℚ) ≤ (⌈r⌉ : ℚ) := le_trans hrlo (Int.le_ceil r)
        exact_mod_cast hq
      have hge : r ≤ (⌈r⌉ : ℚ) := Int.le_ceil r
      have hlt : (⌈r⌉ : ℚ) < r + 1 := Int.ceil_lt_add_one r
      refine ⟨by omega, by omega, ?_⟩
      rw [abs_le]
      constructor <;> linarith
  obtain ⟨hb1, hb2, hb3⟩ := htb
  have hwrap : encodeSample x = jsTrunc r := by
    unfold encodeSample toInt16
    rw [← hr]
    omega
  rw [hwrap, decodeSample]
  have hdiff : (jsTrunc r : ℚ) / 32768 - x = ((jsTrunc r : ℚ) - r) / 32768 := by
    rw [hr]; ring
  rw [hdiff, abs_div, abs_of_pos (by norm_num : (0 : ℚ) < 32768)]
  apply div_le_div_of_nonneg_right ?_ (by norm_num)
  rw [abs_sub_comm]
  exact hb3

/-- C4 counterexample: at full-scale input 1 the claim fails.  The int16
conversion computes 1 * 32768 = 32768, which wraps to -32768, so the decoded
value is -1: an error of 2, far above one quantization step. -/
theorem roundtrip_fails_at_full_scale :
    ¬ |decodeSample (encodeSample 1) - 1| ≤ 1 / 32768 := by
  have h1 : encodeSample 1 = -32768 := by
    norm_num [encodeSample, jsTrunc, toInt16]
  rw [h1]
  norm_num [decodeSample]

/-- C4 (amended): for every array of samples with values in [-1, 1) — full
scale 1 itself excluded, since the unclamped conversion wraps there — the
int16 encode of `createBlob` followed by the decode division by 32768
reproduces every sample to within one quantization step, ±1/32768. -/
theorem roundtrip_within_one_step (xs : List ℚ) (h : ∀ x ∈ xs, -1 ≤ x ∧ x < 1) :
    List.Forall₂ (fun y x => |y - x| ≤ 1 / 32768) (decodeSamples (createBlobInt16 xs)) xs := by
  induction xs with
  | nil => simp [decodeSamples, createBlobInt16]
  | cons a as ih =>
    refine List.Forall₂.cons ?_ (ih fun x hx => h x (by simp [hx]))
    exact decode_encode_within_step a (h a (by simp)).1 (h a (by simp)).2

/-- Witness for C4 at the sample array [1/2, -3/4]. -/
theorem roundtrip_within_one_step_witness :
    List.Forall₂ (fun y x => |y - x| ≤ 1 / 32768)
      (decodeSamples (createBlobInt16 [1/2, -3/4])) [1/2, -3/4] :=
  roundtrip_within_one_step [1/2, -3/4] (by norm_num)

/-- C8: the WAV writer's sample conversion equals the clamp-then-asymmetric
quantization the spec describes (negatives scaled by 32768, non-negatives by
32767, truncated), and the result always lies in the signed 16-bit range —
the ToInt16 wrap of `setInt16` never alters a value. -/
theorem wav_sample_quantization (x : ℚ) :
    wavSample x = specWavQuant x ∧ -32768 ≤ wavSample x ∧ wavSample x ≤ 32767 := by
  have hc1 : (-1 : ℚ) ≤ max (-1) (min 1 x) := le_max_left _ _
  have hc2 : max (-1) (min 1 x) ≤ 1 := max_le (by norm_num) (min_le_left _ _)
  set c := max (-1) (min 1 x) with hc
  have hbounds : -32768 ≤ specWavQuant x ∧ specWavQuant x ≤ 32767 := by
    unfold specWavQuant jsTrunc
    rw [← hc]
    by_cases hneg : c < 0
    · rw [if_pos hneg]
      have hs0 : ¬ (0 : ℚ) ≤ c * 32768 := by nlinarith
      rw [if_neg hs0]
      have h1 : (-32768 : ℚ) ≤ c * 32768 := by nlinarith
      have hcl : (-32768 : ℤ) ≤ ⌈c * 32768⌉ := by
        have hq : ((-32768 : ℤ) : ℚ) ≤ (⌈c * 32768⌉ : ℚ) := by
          push_cast
          exact le_trans h1 (Int.le_ceil _)
        exact_mod_cast hq
      have hcu : ⌈c * 32768⌉ ≤ 0 := Int.ceil_le.mpr (by push_cast; nlinarith)
      omega
    · rw [if_neg hneg]
      push_neg at hneg
      by_cases hs0 : (0 : ℚ) ≤ c * 32767
      · rw [if_pos hs0]
        have hfl : (0 : ℤ) ≤ ⌊c * 32767⌋ := Int.floor_nonneg.mpr hs0
        have hfu : ⌊c * 32767⌋ ≤ 32767 := by
          have hle : c * 32767 ≤ 32767 := by nlinarith
          have h2 : ⌊c * 32767⌋ ≤ ⌊(32767 : ℚ)⌋ := Int.floor_le_floor hle
          simpa using h2
        omega
      · rw [if_neg hs0]
        push_neg at hs0
        nlinarith
  refine ⟨?_, ?_, ?_⟩
  · show toInt16 (specWavQuant x) = specWavQuant x
    unfold toInt16
    omega
  · show -32768 ≤ toInt16 (specWavQuant x)
    unfold toInt16
    omega
  · show toInt16 (specWavQuant x) ≤ 32767
    unfold toInt16
    omega

/-- C9 (the code at the failing input): decoding a well-formed 4-byte chunk
with a reported channel count of zero does not produce a mono segment — the
buffer is requested with zero channels (and frame count `data.length / 2 / 0`)
before the mono fallback branch can run, which the output device API rejects,
so no buffer at all is produced. -/
theorem decode_zero_channels_fails :
    decodeAudioData [1, 0, 2, 0] 48000 0 = none := rfl

/-- C7: for a buffer of N frames, C channels and rate R (each field small
enough for its 32- or 16-bit slot), the emitted header is 44 bytes; the RIFF
size field at offset 4 reads 36 + N*C*2, the data sub-chunk size at offset 40
reads N*C*2, the byte rate at offset 28 reads R*C*2, and the block align at
offset 32 reads C*2, all little-endian. -/
theorem wav_header_fields (b : AudioBuffer)
    (h1 : 36 + b.length * b.numberOfChannels * 2 < 4294967296)
    (h2 : b.sampleRate * b.numberOfChannels * 2 < 4294967296)
    (h3 : b.numberOfChannels * 2 < 65536) :
    (wavHeader b.length b.numberOfChannels b.sampleRate).length = 44 ∧
    readU32LE (audioBufferToWav b) 4 = 36 + b.length * b.numberOfChannels * 2 ∧
    readU32LE (audioBufferToWav b) 40 = b.length * b.numberOfChannels * 2 ∧
    readU32LE (audioBufferToWav b) 28 = b.sampleRate * b.numberOfChannels * 2 ∧
    readU16LE (audioBufferToWav b) 32 = b.numberOfChannels * 2 := by
  unfold audioBufferToWav
  rw [wavHeader_flat]
  refine ⟨by simp, ?_, ?_, ?_, ?_⟩
  · exact (digits32_recompose _ h1 : _)
  · exact (digits32_recompose (b.length * b.numberOfChannels * 2) (by omega) : _)
  · have hcomm : b.sampleRate * 2 * b.numberOfChannels =
        b.sampleRate * b.numberOfChannels * 2 := by ring
    have h2b : b.sampleRate * 2 * b.numberOfChannels < 4294967296 := by
      rw [hcomm]; exact h2
    rw [← hcomm]
    exact (digits32_recompose (b.sampleRate * 2 * b.numberOfChannels) h2b : _)
  · exact (digits16_recompose _ h3 : _)

/-- Witness for C7 at a concrete 3-frame stereo buffer at 48 kHz. -/
theorem wav_header_fields_witness :
    (wavHeader (AudioBuffer.mk 2 3 48000 [[0, 0, 0], [0, 0, 0]]).length
      (AudioBuffer.mk 2 3 48000 [[0, 0, 0], [0, 0, 0]]).numberOfChannels
      (AudioBuffer.mk 2 3 48000 [[0, 0, 0], [0, 0, 0]]).sampleRate).length = 44 ∧
    readU32LE (audioBufferToWav (AudioBuffer.mk 2 3 48000 [[0, 0, 0], [0, 0, 0]])) 4 = 36 + 3 * 2 * 2 ∧
    readU32LE (audioBufferToWav (AudioBuffer.mk 2 3 48000 [[0, 0, 0], [0, 0, 0]])) 40 = 3 * 2 * 2 ∧
    readU32LE (audioBufferToWav (AudioBuffer.mk 2 3 48000 [[0, 0, 0], [0, 0, 0]])) 28 = 48000 * 2 * 2 ∧
    readU16LE (audioBufferToWav (AudioBuffer.mk 2 3 48000 [[0, 0, 0], [0, 0, 0]])) 32 = 2 * 2 :=
  wav_header_fields (AudioBuffer.mk 2 3 48000 [[0, 0, 0], [0, 0, 0]])
    (by norm_num) (by norm_num) (by norm_num)

/-! Embedding of the PromptDj engine state and handlers (src/index.tsx). -/

/-- `type PlaybackState = 'stopped' | 'playing' | 'loading' | 'paused'`
(src/index.tsx line 33). -/
inductive PlaybackState where
  | stopped
  | playing
  | loading
  | paused
deriving DecidableEq

/-- The engine fields of the `PromptDj` component that the verified claims
observe (src/index.tsx lines 1864-1867): the playback state, the schedule
cursor `nextStartTime`, and the capture log `recordedChunks`.  Audio-graph
handles (gain node, analyser) and the UI elapsed-time fields are elided: they
carry no scheduling or capture state. -/
structure EngineState where
  playbackState : PlaybackState
  nextStartTime : ℚ
  recordedChunks : List AudioBuffer
deriving DecidableEq

/-- `private readonly bufferTime = 2` (src/index.tsx line 1865): the jitter
buffer lead in seconds, the spec's `bufferLeadSeconds` (default 2.0 s). -/
def bufferTime : ℚ := 2

/-- Outcome of the scheduling tail of the audio-message handler:
`nextStartTime` is the cursor after the step, `started` the instant handed to
`source.start` (`none` when the underrun branch discards the segment), and
`deferredPlay` records that the `setTimeout` switching the state to `playing`
after `bufferTime` seconds was installed. -/
structure SchedResult where
  nextStartTime : ℚ
  started : Option ℚ
  deferredPlay : Bool
deriving DecidableEq

/-- Lines 1952-1981 of src/index.tsx, for one segment of duration `dur`
arriving when the audio clock reads `now` and the cursor reads `nst`: a zero
cursor is first re-armed to `now + bufferTime` (installing the deferred
transition to `playing`); then the underrun check `nextStartTime <
currentTime` either discards the segment and zeroes the cursor, or the
segment is started at the cursor and the cursor advances by its duration. -/
def schedStep (now dur nst : ℚ) : SchedResult :=
  let nst1 := if nst = 0 then now + bufferTime else nst
  if nst1 < now then ⟨0, none, decide (nst = 0)⟩
  else ⟨nst1 + dur, some nst1, decide (nst = 0)⟩

/-- Observable outcome of one inbound audio-segment message.
`decodeAttempted` records whether control reached the `decodeAudioData` call. -/
structure HandlerResult where
  state : EngineState
  decodeAttempted : Bool
  started : Option ℚ
  deferredPlay : Bool
deriving DecidableEq

/-- The `serverContent.audioChunks` branch of the `onmessage` callback
(src/index.tsx lines 1930-1982).  While `paused` or `stopped` the handler
returns before decoding.  Otherwise the chunk is decoded at 48 kHz stereo;
a decode failure would throw out of the callback, performing nothing further.
On success the segment is appended to `recordedChunks` when the state is
`playing` or `loading` (re-checked after the await), and then the scheduling
step of lines 1952-1981 runs; its underrun branch switches the state to
`loading`. -/
def onAudioMessage (s : EngineState) (now : ℚ) (chunk : List ℕ) : HandlerResult :=
  if s.playbackState = PlaybackState.paused ∨ s.playbackState = PlaybackState.stopped then
    ⟨s, false, none, false⟩
  else
    match decodeAudioData chunk 48000 2 with
    | none => ⟨s, true, none, false⟩
    | some audioBuffer =>
      let s1 := if s.playbackState = PlaybackState.playing ∨
          s.playbackState = PlaybackState.loading
        then { s with recordedChunks := s.recordedChunks ++ [audioBuffer] }
        else s
      let r := schedStep now audioBuffer.duration s1.nextStartTime
      match r.started with
      | none =>
        ⟨{ s1 with playbackState := PlaybackState.loading, nextStartTime := 0 },
          true, none, r.deferredPlay⟩
      | some t =>
        ⟨{ s1 with nextStartTime := r.nextStartTime }, true, some t, r.deferredPlay⟩

/-- `pauseAudio` (src/index.tsx lines 2132-2148) on the embedded fields:
state becomes `paused` and the cursor is reset; the gain ramp, the fresh
output node and the timer teardown touch only elided fields. -/
def pauseAudio (s : EngineState) : EngineState :=
  { s with playbackState := PlaybackState.paused, nextStartTime := 0 }

/-- `loadAudio` (src/index.tsx lines 2150-2160): the capture log is cleared
and the state becomes `loading`; the cursor is not touched here (it is
already 0 after the pause or stop that preceded any play request). -/
def loadAudio (s : EngineState) : EngineState :=
  { s with playbackState := PlaybackState.loading, recordedChunks := [] }

/-- `stopAudio` (src/index.tsx lines 2162-2177): state becomes `stopped` and
the cursor is reset.  The capture log is not cleared by this handler. -/
def stopAudio (s : EngineState) : EngineState :=
  { s with playbackState := PlaybackState.stopped, nextStartTime := 0 }

/-- `handleReset` (src/index.tsx lines 2380-2414), synchronous body on an
established connection: `pauseAudio()` followed by clearing the capture log.
The session/context/settings calls act on collaborators, and the `loadAudio`
scheduled 100 ms later clears the (already empty) log again. -/
def handleReset (s : EngineState) : EngineState :=
  { pauseAudio s with recordedChunks := [] }

/-- `throttle` (src/index.tsx lines 62-72) driven over a list of timed
invocation requests.  `lastCall` starts at 0; a request at time `t` fires the
wrapped function exactly when `t - lastCall ≥ delay`, updating `lastCall`;
otherwise it is dropped outright — the source schedules no trailing call.
Returns the final `lastCall` and the payloads of the requests that fired, in
order.  For the throttled `setSessionPrompts` (lines 2006-2022, delay 200 ms)
the payload submitted by a firing request is the prompt state current at that
moment, i.e. the firing request's own payload. -/
def throttleRun {α : Type} (delay : ℤ) : ℤ → List (ℤ × α) → ℤ × List α
  | lastCall, [] => (lastCall, [])
  | lastCall, (now, payload) :: rest =>
    if delay ≤ now - lastCall then
      let q := throttleRun delay now rest
      (q.1, payload :: q.2)
    else throttleRun delay lastCall rest

/-- The scheduling step of lines 1952-1981 folded over a whole arrival
sequence of (clock reading, duration) pairs, collecting each segment's start
result; returns the final cursor as well. -/
def runSched (nst : ℚ) : List (ℚ × ℚ) → ℚ × List (Option ℚ)
  | [] => (nst, [])
  | (now, dur) :: rest =>
    let r := schedStep now dur nst
    let q := runSched r.nextStartTime rest
    (q.1, r.started :: q.2)

/-- True when no arrival in the sequence takes the underrun branch. -/
def underrunFree (nst : ℚ) : List (ℚ × ℚ) → Bool
  | [] => true
  | (now, dur) :: rest =>
    let r := schedStep now dur nst
    r.started.isSome && underrunFree r.nextStartTime rest

/-- The schedule as the specification words it: the first segment starts at
the cursor (re-armed to `now + bufferTime` when the cursor is cold), and each
later segment starts exactly where the previous one ends.  Produces the list
of (start time, duration) pairs. -/
def schedule (nst : ℚ) : List (ℚ × ℚ) → List (ℚ × ℚ)
  | [] => []
  | (now, dur) :: rest =>
    let s := if nst = 0 then now + bufferTime else nst
    (s, dur) :: schedule (s + dur) rest

/-- Check that consecutive (start, duration) entries have zero gap:
each start equals the previous start plus the previous duration. -/
def gaplessB : List (ℚ × ℚ) → Bool
  | (s1, d1) :: (s2, d2) :: rest => decide (s2 = s1 + d1) && gaplessB ((s2, d2) :: rest)
  | _ => true

/-- Check that start times are non-decreasing along the schedule. -/
def monotoneB : List (ℚ × ℚ) → Bool
  | (s1, _) :: (s2, d2) :: rest => decide (s1 ≤ s2) && monotoneB ((s2, d2) :: rest)
  | _ => true

/-- The final cursor value the spec's schedule predicts: the end instant of
the last scheduled segment (or the inherited cursor for an empty sequence). -/
def scheduleEnd (nst : ℚ) : List (ℚ × ℚ) → ℚ
  | [] => nst
  | (now, dur) :: rest =>
    let s := if nst = 0 then now + bufferTime else nst
    scheduleEnd (s + dur) rest

/-! Helper lemmas about the scheduling step and the message handler. -/

/-- The underrun branch: a non-zero cursor already in the past discards the
segment, zeroes the cursor and installs no deferred transition. -/
lemma schedStep_underrun (now dur nst : ℚ) (hnz : nst ≠ 0) (hlate : nst < now) :
    schedStep now dur nst = ⟨0, none, false⟩ := by
  simp [schedStep, hnz, hlate]

/-- The cold-cursor branch: a zero cursor is re-armed to `now + bufferTime`,
which is never in the past, so the segment starts there. -/
lemma schedStep_cold (now dur : ℚ) :
    schedStep now dur 0 = ⟨now + bufferTime + dur, some (now + bufferTime), true⟩ := by
  have hge : ¬ now + bufferTime < now := by simp [bufferTime]
  simp [schedStep, hge]

/-- Shape of the handler on an accepted late segment: it is recorded, the
state flips to `loading`, the cursor is zeroed, and nothing is started. -/
lemma onAudioMessage_underrun (s : EngineState) (now : ℚ) (chunk : List ℕ)
    (buf : AudioBuffer)
    (hstate : s.playbackState = PlaybackState.playing ∨
      s.playbackState = PlaybackState.loading)
    (hdec : decodeAudioData chunk 48000 2 = some buf)
    (hnz : s.nextStartTime ≠ 0) (hlate : s.nextStartTime < now) :
    onAudioMessage s now chunk =
      ⟨⟨PlaybackState.loading, 0, s.recordedChunks ++ [buf]⟩, true, none, false⟩ := by
  have hng : ¬ (s.playbackState = PlaybackState.paused ∨
      s.playbackState = PlaybackState.stopped) := by
    rcases hstate with h | h <;> simp [h]
  unfold onAudioMessage
  rw [if_neg hng, hdec]
  simp only [if_pos hstate]
  rw [schedStep_underrun now buf.duration s.nextStartTime hnz hlate]

/-- Concrete evaluation of the decoder on a 4-byte all-zero stereo chunk,
used by the witnesses. -/
lemma decode_4byte : decodeAudioData [0, 0, 0, 0] 48000 2 =
    some ⟨2, 1, 48000, [[0], [0]]⟩ := by
  norm_num [decodeAudioData, createBuffer, decodeSamples, bytesToInt16, toInt16,
    decodeSample, copyChannelLoop, channelSlice, copyToChannel, List.range_succ,
    List.enum, List.enumFrom, List.filter, List.replicate, List.set, List.take, List.drop]

/-- A run of requests each closer than `delay` to the time of the last fired
call is dropped wholesale, leaving `lastCall` untouched. -/
lemma throttleRun_drops {α : Type} (delay t : ℤ) :
    ∀ (rest : List (ℤ × α)), (∀ q ∈ rest, q.1 - t < delay) →
    throttleRun delay t rest = (t, []) := by
  intro rest
  induction rest with
  | nil => intro _; rfl
  | cons hd tl ih =>
    intro h
    obtain ⟨n, p⟩ := hd
    have hn : ¬ delay ≤ n - t := by
      have := h (n, p) (by simp)
      simp at this ⊢
      linarith
    rw [throttleRun, if_neg hn]
    exact ih fun q hq => h q (by simp [hq])

/-- Refinement: an underrun-free run of the code's scheduling step produces
exactly the starts of the spec's gapless schedule, and its final cursor is
the end instant of the last scheduled segment. -/
lemma run_refines_schedule : ∀ (steps : List (ℚ × ℚ)) (c : ℚ),
    underrunFree c steps = true →
    (runSched c steps).2 = (schedule c steps).map (fun p => some p.1) ∧
    (runSched c steps).1 = scheduleEnd c steps := by
  intro steps
  induction steps with
  | nil => intro c _; simp [runSched, schedule, scheduleEnd]
  | cons hd rest ih =>
    intro c hu
    obtain ⟨now, dur⟩ := hd
    rw [underrunFree] at hu
    simp only [Bool.and_eq_true, Option.isSome_iff_exists] at hu
    obtain ⟨⟨t, ht⟩, hu2⟩ := hu
    have hns : ¬ ((if c = 0 then now + bufferTime else c) < now) := by
      by_contra hlt
      simp [schedStep, hlt] at ht
    have hstep : schedStep now dur c =
        ⟨(if c = 0 then now + bufferTime else c) + dur,
         some (if c = 0 then now + bufferTime else c), decide (c = 0)⟩ := by
      rw [schedStep]
      simp only [if_neg hns]
    have ihr := ih ((if c = 0 then now + bufferTime else c) + dur) (by
      rw [hstep] at hu2
      exact hu2)
    constructor
    · rw [runSched, schedule, hstep]
      simp only [List.map_cons]
      exact congrArg _ ihr.1
    · rw [runSched, scheduleEnd, hstep]
      exact ihr.2

/-- The spec's schedule built from non-negative clock readings and strictly
positive durations is gapless and has non-decreasing start times. -/
lemma schedule_gapless_monotone : ∀ (steps : List (ℚ × ℚ)) (c : ℚ),
    (∀ p ∈ steps, 0 ≤ p.1 ∧ 0 < p.2) → (c = 0 ∨ 0 < c) →
    gaplessB (schedule c steps) = true ∧ monotoneB (schedule c steps) = true := by
  intro steps
  induction steps with
  | nil => intro c _ _; simp [schedule, gaplessB, monotoneB]
  | cons hd rest ih =>
    intro c hmem hc
    obtain ⟨now, dur⟩ := hd
    have hnow : 0 ≤ now := (hmem (now, dur) (by simp)).1
    have hdur : 0 < dur := (hmem (now, dur) (by simp)).2
    have hs : 0 < (if c = 0 then now + bufferTime else c) := by
      rcases hc with h0 | hpos
      · rw [if_pos h0, bufferTime]; linarith
      · rw [if_neg (ne_of_gt hpos)]; exact hpos
    set s := if c = 0 then now + bufferTime else c with hsdef
    have hnext : 0 < s + dur := by linarith
    have ihr := ih (s + dur) (fun p hp => hmem p (by simp [hp])) (Or.inr hnext)
    rw [schedule]
    rw [← hsdef]
    cases rest with
    | nil => simp [schedule, gaplessB, monotoneB]
    | cons hd2 rest2 =>
      obtain ⟨n2, d2⟩ := hd2
      rw [schedule] at ihr ⊢
      rw [if_neg (ne_of_gt hnext)] at ihr ⊢
      rw [gaplessB, monotoneB]
      simp only [Bool.and_eq_true, decide_eq_true_eq]
      exact ⟨⟨trivial, ihr.1⟩, ⟨by linarith, ihr.2⟩⟩

/-! The claim theorems for the engine. -/

/-- C1: over any underrun-free arrival sequence handled while segments are
being accepted (clock readings non-negative, durations positive), every
segment is started exactly at the schedule cursor — the code's per-segment
start results coincide with the spec's gapless schedule — the final cursor
equals the end instant of the last segment (the cursor advanced by exactly
each duration), consecutive starts have zero gap, and start times are
non-decreasing. -/
theorem monotonic_scheduling (steps : List (ℚ × ℚ))
    (harr : ∀ p ∈ steps, 0 ≤ p.1 ∧ 0 < p.2)
    (hfree : underrunFree 0 steps = true) :
    (runSched 0 steps).2 = (schedule 0 steps).map (fun p => some p.1) ∧
    (runSched 0 steps).1 = scheduleEnd 0 steps ∧
    gaplessB (schedule 0 steps) = true ∧
    monotoneB (schedule 0 steps) = true := by
  have h1 := run_refines_schedule steps 0 hfree
  have h2 := schedule_gapless_monotone steps 0 harr (Or.inl rfl)
  exact ⟨h1.1, h1.2, h2.1, h2.2⟩

/-- Witness for C1 on a three-segment arrival sequence. -/
theorem monotonic_scheduling_witness :
    (runSched 0 [(0, 1), (0, 1), (1, 1)]).2 =
      (schedule 0 [(0, 1), (0, 1), (1, 1)]).map (fun p => some p.1) ∧
    (runSched 0 [(0, 1), (0, 1), (1, 1)]).1 = scheduleEnd 0 [(0, 1), (0, 1), (1, 1)] ∧
    gaplessB (schedule 0 [(0, 1), (0, 1), (1, 1)]) = true ∧
    monotoneB (schedule 0 [(0, 1), (0, 1), (1, 1)]) = true :=
  monotonic_scheduling [(0, 1), (0, 1), (1, 1)]
    (by norm_num)
    (by norm_num [underrunFree, schedStep, bufferTime])

/-- C2: a segment arriving with a non-zero cursor already in the past is an
underrun — the handler switches the state to `loading`, zeroes the cursor,
and does not start the segment; the next accepted segment then finds a cold
cursor and is scheduled at `now + bufferTime`, a fresh lead of
`bufferTime` = 2.0 seconds. -/
theorem underrun_recovery (s : EngineState) (now now2 : ℚ) (chunk chunk2 : List ℕ)
    (buf buf2 : AudioBuffer)
    (hstate : s.playbackState = PlaybackState.playing ∨
      s.playbackState = PlaybackState.loading)
    (hdec : decodeAudioData chunk 48000 2 = some buf)
    (hdec2 : decodeAudioData chunk2 48000 2 = some buf2)
    (hnz : s.nextStartTime ≠ 0) (hlate : s.nextStartTime < now) :
    (onAudioMessage s now chunk).state.playbackState = PlaybackState.loading ∧
    (onAudioMessage s now chunk).state.nextStartTime = 0 ∧
    (onAudioMessage s now chunk).started = none ∧
    (onAudioMessage (onAudioMessage s now chunk).state now2 chunk2).started =
      some (now2 + bufferTime) ∧
    bufferTime = 2 := by
  rw [onAudioMessage_underrun s now chunk buf hstate hdec hnz hlate]
  refine ⟨rfl, rfl, rfl, ?_, rfl⟩
  simp [onAudioMessage, hdec2, schedStep_cold now2 buf2.duration]

/-- Witness for C2: a playing engine whose cursor (5 s) lags the clock (6 s),
then a second chunk at clock 10 s. -/
theorem underrun_recovery_witness :
    (onAudioMessage ⟨PlaybackState.playing, 5, []⟩ 6 [0, 0, 0, 0]).state.playbackState =
      PlaybackState.loading ∧
    (onAudioMessage ⟨PlaybackState.playing, 5, []⟩ 6 [0, 0, 0, 0]).state.nextStartTime = 0 ∧
    (onAudioMessage ⟨PlaybackState.playing, 5, []⟩ 6 [0, 0, 0, 0]).started = none ∧
    (onAudioMessage (onAudioMessage ⟨PlaybackState.playing, 5, []⟩ 6 [0, 0, 0, 0]).state
      10 [0, 0, 0, 0]).started = some (10 + bufferTime) ∧
    bufferTime = 2 :=
  underrun_recovery ⟨PlaybackState.playing, 5, []⟩ 6 10 [0, 0, 0, 0] [0, 0, 0, 0]
    ⟨2, 1, 48000, [[0], [0]]⟩ ⟨2, 1, 48000, [[0], [0]]⟩
    (Or.inl rfl) decode_4byte decode_4byte (by norm_num) (by norm_num)

/-- C3 counterexample: a chunk arriving while the state is `paused` is not
decoded — the handler returns before the `decodeAudioData` call — whereas the
claim asserts every such chunk is decoded. -/
theorem gating_cex_paused_not_decoded :
    (onAudioMessage ⟨PlaybackState.paused, 0, []⟩ 0 [0, 0, 0, 0]).decodeAttempted = false := rfl

/-- C3 (amended): segments arriving while `paused` or `stopped` are ignored
before the codec runs — neither decoded, nor scheduled, nor appended to the
capture log (the state is untouched); segments arriving while `playing` or
`loading` are decoded, appended to the capture log, and handed to the
scheduling step. -/
theorem gating_decode_and_capture (s : EngineState) (now : ℚ) (chunk : List ℕ)
    (buf : AudioBuffer)
    (hdec : decodeAudioData chunk 48000 2 = some buf) :
    ((s.playbackState = PlaybackState.paused ∨ s.playbackState = PlaybackState.stopped) →
      (onAudioMessage s now chunk).decodeAttempted = false ∧
      (onAudioMessage s now chunk).started = none ∧
      (onAudioMessage s now chunk).state = s) ∧
    ((s.playbackState = PlaybackState.playing ∨ s.playbackState = PlaybackState.loading) →
      (onAudioMessage s now chunk).decodeAttempted = true ∧
      (onAudioMessage s now chunk).state.recordedChunks = s.recordedChunks ++ [buf] ∧
      (onAudioMessage s now chunk).started =
        (schedStep now buf.duration s.nextStartTime).started) := by
  constructor
  · intro hgate
    simp [onAudioMessage, hgate]
  · intro hacc
    have hng : ¬ (s.playbackState = PlaybackState.paused ∨
        s.playbackState = PlaybackState.stopped) := by
      rcases hacc with h | h <;> simp [h]
    unfold onAudioMessage
    rw [if_neg hng, hdec]
    simp only [if_pos hacc]
    rcases hres : (schedStep now buf.duration s.nextStartTime).started with _ | t
    · simp [hres]
    · simp [hres]

/-- Witness for C3 at a paused engine and a decodable 4-byte chunk. -/
theorem gating_decode_and_capture_witness :
    (((⟨PlaybackState.paused, 0, []⟩ : EngineState).playbackState = PlaybackState.paused ∨
      (⟨PlaybackState.paused, 0, []⟩ : EngineState).playbackState = PlaybackState.stopped) →
      (onAudioMessage ⟨PlaybackState.paused, 0, []⟩ 7 [0, 0, 0, 0]).decodeAttempted = false ∧
      (onAudioMessage ⟨PlaybackState.paused, 0, []⟩ 7 [0, 0, 0, 0]).started = none ∧
      (onAudioMessage ⟨PlaybackState.paused, 0, []⟩ 7 [0, 0, 0, 0]).state =
        ⟨PlaybackState.paused, 0, []⟩) ∧
    (((⟨PlaybackState.paused, 0, []⟩ : EngineState).playbackState = PlaybackState.playing ∨
      (⟨PlaybackState.paused, 0, []⟩ : EngineState).playbackState = PlaybackState.loading) →
      (onAudioMessage ⟨PlaybackState.paused, 0, []⟩ 7 [0, 0, 0, 0]).decodeAttempted = true ∧
      (onAudioMessage ⟨PlaybackState.paused, 0, []⟩ 7 [0, 0, 0, 0]).state.recordedChunks =
        (⟨PlaybackState.paused, 0, []⟩ : EngineState).recordedChunks ++
          [⟨2, 1, 48000, [[0], [0]]⟩] ∧
      (onAudioMessage ⟨PlaybackState.paused, 0, []⟩ 7 [0, 0, 0, 0]).started =
        (schedStep 7 (AudioBuffer.duration ⟨2, 1, 48000, [[0], [0]]⟩)
          (⟨PlaybackState.paused, 0, []⟩ : EngineState).nextStartTime).started) :=
  gating_decode_and_capture ⟨PlaybackState.paused, 0, []⟩ 7 [0, 0, 0, 0]
    ⟨2, 1, 48000, [[0], [0]]⟩ decode_4byte

/-- C10: a segment accepted while `playing` or `loading` whose scheduled slot
has already passed (underrun) is appended to the capture log before the
underrun check runs, so it is retained for a later WAV export even though its
playback is discarded. -/
theorem late_segment_still_captured (s : EngineState) (now : ℚ) (chunk : List ℕ)
    (buf : AudioBuffer)
    (hstate : s.playbackState = PlaybackState.playing ∨
      s.playbackState = PlaybackState.loading)
    (hdec : decodeAudioData chunk 48000 2 = some buf)
    (hnz : s.nextStartTime ≠ 0) (hlate : s.nextStartTime < now) :
    (onAudioMessage s now chunk).state.recordedChunks = s.recordedChunks ++ [buf] ∧
    buf ∈ (onAudioMessage s now chunk).state.recordedChunks ∧
    (onAudioMessage s now chunk).started = none := by
  rw [onAudioMessage_underrun s now chunk buf hstate hdec hnz hlate]
  exact ⟨rfl, by simp, rfl⟩

/-- Witness for C10: a loading engine with cursor 3 s behind a clock at 4 s. -/
theorem late_segment_still_captured_witness :
    (onAudioMessage ⟨PlaybackState.loading, 3, []⟩ 4 [0, 0, 0, 0]).state.recordedChunks =
      (⟨PlaybackState.loading, 3, []⟩ : EngineState).recordedChunks ++
        [⟨2, 1, 48000, [[0], [0]]⟩] ∧
    (⟨2, 1, 48000, [[0], [0]]⟩ : AudioBuffer) ∈
      (onAudioMessage ⟨PlaybackState.loading, 3, []⟩ 4 [0, 0, 0, 0]).state.recordedChunks ∧
    (onAudioMessage ⟨PlaybackState.loading, 3, []⟩ 4 [0, 0, 0, 0]).started = none :=
  late_segment_still_captured ⟨PlaybackState.loading, 3, []⟩ 4 [0, 0, 0, 0]
    ⟨2, 1, 48000, [[0], [0]]⟩ (Or.inr rfl) decode_4byte (by norm_num) (by norm_num)

/-- C5 counterexample: five reconfiguration requests 10 ms apart (well inside
a 50 ms window) against the 200 ms throttle yield exactly one submission, but
it carries the first request's payload, not the last one's. -/
theorem coalescing_cex_first_payload :
    (throttleRun 200 0 [(1000, 1), (1010, 2), (1020, 3), (1030, 4), (1040, 5)]).2 = [(1 : ℕ)] ∧
    (throttleRun 200 0 [(1000, 1), (1010, 2), (1020, 3), (1030, 4), (1040, 5)]).2 ≠ [(5 : ℕ)] := by
  decide

/-- C5 (amended): a burst of reconfiguration requests whose first member is
at least `delay` past the previous fired call and whose remaining members all
fall within `delay` of the first results in exactly one submission to the
session, carrying the first request's payload; the later requests are dropped
outright (the throttle fires on the leading edge and schedules no trailing
call). -/
theorem coalesced_single_submission {α : Type} (delay lastCall t1 : ℤ) (p1 : α)
    (rest : List (ℤ × α))
    (hfirst : delay ≤ t1 - lastCall)
    (hrest : ∀ q ∈ rest, t1 ≤ q.1 ∧ q.1 - t1 < delay) :
    throttleRun delay lastCall ((t1, p1) :: rest) = (t1, [p1]) := by
  rw [throttleRun, if_pos hfirst]
  rw [throttleRun_drops delay t1 rest fun q hq => (hrest q hq).2]

/-- Witness for C5 on the five-request burst of the counterexample. -/
theorem coalesced_single_submission_witness :
    throttleRun 200 0 [((1000 : ℤ), (1 : ℕ)), (1010, 2), (1020, 3), (1030, 4), (1040, 5)] =
      (1000, [1]) :=
  coalesced_single_submission 200 0 1000 1 [(1010, 2), (1020, 3), (1030, 4), (1040, 5)]
    (by decide) (by decide)

/-- C6 counterexample: stopping a playing engine whose capture log holds one
segment leaves the log non-empty — `stopAudio` does not clear it, contrary to
the claim that all three of stop, reset and new-session-load empty the log. -/
theorem stop_preserves_capture_log :
    (stopAudio ⟨PlaybackState.playing, 3, [⟨2, 1, 48000, [[0], [0]]⟩]⟩).recordedChunks ≠ [] := by
  simp [stopAudio]

/-- C6 (amended): the capture log is emptied by a new-session-load
(`loadAudio`) and by a reset (`handleReset`); a stop (`stopAudio`) leaves it
unchanged, so a recording remains downloadable after stopping. -/
theorem capture_log_clearing (s : EngineState) :
    (loadAudio s).recordedChunks = [] ∧
    (handleReset s).recordedChunks = [] ∧
    (stopAudio s).recordedChunks = s.recordedChunks :=
  ⟨rfl, rfl, rfl⟩
